import Mathlib

/-!
Verification development for the Articulate Rise course link scanner
(`articulate_scanner/scanner.py`, with near-identical copies in
`find_link.py` and `articulate_course_url_scanner2.py`).

The scanner's state, pure helper functions and traversal algorithm are
embedded shallowly.  Python strings are modelled as Lean `String`s whose
operations are carried out on the underlying character lists (Python
strings are sequences of characters, so the char-list operations below
implement exactly the Python semantics used by the source: `startswith`,
`in`, `split(sep)[0]`, `strip`, `replace`).  The rendering collaborator
(Selenium driver plus BeautifulSoup) is abstracted as an oracle from URLs
to parsed pages that can fail, matching the spec's "Page Renderer"
collaborator; a parsed page (`Soup`) carries what the source queries from
BeautifulSoup: the anchor elements with their attributes and text, and
the text of the `h1.lesson-header__title` element when present.
-/

namespace LinkFinder

/-- Python `s.startswith(pre)`. -/
def pyStartsWith (s pre : String) : Bool :=
  pre.data.isPrefixOf s.data

/-- Python `c in s` for a single character `c`. -/
def pyHasChar (s : String) (c : Char) : Bool :=
  s.data.contains c

/-- Python `sub in s` (substring containment). -/
def pyHasSub (s sub : String) : Bool :=
  s.data.tails.any (fun t => sub.data.isPrefixOf t)

/-- Python `s.split(c)[0]`: the prefix of `s` before the first occurrence
of the character `c` (all of `s` when `c` is absent). -/
def pySplitHead (s : String) (c : Char) : String :=
  ⟨s.data.takeWhile (fun x => x != c)⟩

/-- Characters removed from both ends by Python `s.strip()` (modelled with
Lean's whitespace predicate; the URLs and titles involved are ASCII). -/
def stripChars (cs : List Char) : List Char :=
  ((cs.dropWhile Char.isWhitespace).reverse.dropWhile Char.isWhitespace).reverse

/-- Python `s.strip()`. -/
def pyStrip (s : String) : String :=
  ⟨stripChars s.data⟩

/-- Fuel-driven worker for `replaceAll`; the fuel is an upper bound on the
length of the remaining input, so the zero-fuel branch is never reached
when called through `replaceAll`. -/
def replaceFuel (pat r : List Char) : Nat → List Char → List Char
  | _, [] => []
  | 0, s => s
  | fuel + 1, c :: rest =>
    if pat.isPrefixOf (c :: rest) && !pat.isEmpty then
      r ++ replaceFuel pat r fuel (rest.drop (pat.length - 1))
    else
      c :: replaceFuel pat r fuel rest

/-- Python `s.replace(pat, r)` for a nonempty pattern: every leftmost
non-overlapping occurrence of `pat` is replaced by `r`. -/
def replaceAll (pat r s : List Char) : List Char :=
  replaceFuel pat r s.length s

/-- Python `s.replace(pat, r)` on strings (nonempty `pat`). -/
def pyReplace (s pat r : String) : String :=
  ⟨replaceAll pat.data r.data s.data⟩

/-! ## A model of Python `urllib.parse.urlparse`

Only the components the source reads (`netloc` and `path`) plus the ones
needed to compute them (`scheme`, `query`, `fragment`, `params`) are
modelled, following the algorithm of `urllib.parse.urlsplit` /
`urlparse`: optional scheme before a first `:` made of scheme characters,
a netloc after a leading `//` running until `/`, `?` or `#`, fragment
after the first `#`, query after the first `?`, and path parameters after
a `;` in the last path segment. -/

structure ParseResult where
  scheme : String
  netloc : String
  path : String
  params : String
  query : String
  fragment : String
deriving DecidableEq, Repr

/-- Characters allowed in a URL scheme (ASCII alphanumerics and `+-.`). -/
def isSchemeChar (c : Char) : Bool :=
  c.isAlphanum || c == '+' || c == '-' || c == '.'

/-- Split a leading `scheme:` off a URL, as `urlsplit` does: the part
before the first `:` counts as a scheme when it is nonempty, starts with
an ASCII letter and consists of scheme characters; it is lowercased. -/
def schemeSplit (cs : List Char) : List Char × List Char :=
  match cs.findIdx? (fun c => c == ':') with
  | Option.none => ([], cs)
  | Option.some i =>
    if 0 < i && (cs.headD ' ').isAlpha && (cs.take i).all isSchemeChar then
      ((cs.take i).map Char.toLower, cs.drop (i + 1))
    else ([], cs)

/-- Index of the first occurrence of `c` in `cs` at or after `start`. -/
def findFrom (c : Char) (cs : List Char) (start : Nat) : Option Nat :=
  match (cs.drop start).findIdx? (fun x => x == c) with
  | Option.none => Option.none
  | Option.some k => Option.some (start + k)

/-- Index of the last occurrence of `c` in `cs`. -/
def rfindIdx (c : Char) (cs : List Char) : Option Nat :=
  match cs.reverse.findIdx? (fun x => x == c) with
  | Option.none => Option.none
  | Option.some k => Option.some (cs.length - 1 - k)

/-- `urlparse`'s `_splitparams`: split path parameters after a `;` in the
last path segment. -/
def splitParams (path : List Char) : List Char × List Char :=
  let i :=
    if path.contains '/' then
      match rfindIdx '/' path with
      | Option.none => findFrom ';' path 0
      | Option.some j => findFrom ';' path j
    else findFrom ';' path 0
  match i with
  | Option.none => (path, [])
  | Option.some i => (path.take i, path.drop (i + 1))

/-- Model of Python `urllib.parse.urlparse`.  Tab, CR and LF characters
are removed first (as `urlsplit` does), then scheme, netloc, fragment,
query and path parameters are split off in that order. -/
def urlparse (url : String) : ParseResult :=
  let cs := url.data.filter (fun c => !(c == '\t' || c == '\r' || c == '\x0a'))
  let (scheme, rest) := schemeSplit cs
  let (netloc, rest) :=
    if ['/', '/'].isPrefixOf rest then
      let body := rest.drop 2
      (body.takeWhile (fun c => !(c == '/' || c == '?' || c == '#')),
       body.dropWhile (fun c => !(c == '/' || c == '?' || c == '#')))
    else ([], rest)
  let (rest, fragment) :=
    if rest.contains '#' then
      (rest.takeWhile (fun c => c != '#'), (rest.dropWhile (fun c => c != '#')).drop 1)
    else (rest, [])
  let (rest, query) :=
    if rest.contains '?' then
      (rest.takeWhile (fun c => c != '?'), (rest.dropWhile (fun c => c != '?')).drop 1)
    else (rest, [])
  let (path, params) :=
    if rest.contains ';' then splitParams rest else (rest, [])
  { scheme := ⟨scheme⟩, netloc := ⟨netloc⟩, path := ⟨path⟩,
    params := ⟨params⟩, query := ⟨query⟩, fragment := ⟨fragment⟩ }

/-! ## Data model -/

/-- An anchor (`<a>`) element as the source queries it from BeautifulSoup:
its `href` attribute when present, its `data-link` attribute when present,
and its text content as returned by `get_text(strip=True)`. -/
structure Anchor where
  href : Option String
  dataLink : Option String
  text : String
deriving DecidableEq, Repr

/-- A parsed page (the `soup`): its anchor elements in document order and
the stripped text of the first `h1` with class `lesson-header__title`,
when such an element exists. -/
structure Soup where
  anchors : List Anchor
  lessonHeaderTitle : Option String
deriving DecidableEq, Repr

/-- One discovered outbound link, as accumulated in `all_results`. -/
structure DiscoveredLink where
  url : String
  link_text : String
  lesson : String
  display : String
deriving DecidableEq, Repr

/-- One entry of the lesson navigation list returned by `get_lesson_links`. -/
structure LessonLink where
  url : String
  title : String
  lesson_id : String
deriving DecidableEq, Repr

/-- Result of `verify_url`. -/
structure VerificationResult where
  status : String
  code : Option Nat
  message : String
deriving DecidableEq, Repr

/-- Outcome of the HTTP HEAD request issued by `verify_url`: either a
response carrying a status code and the final URL after redirects, or one
of the exception kinds the source catches. -/
inductive FetchOutcome where
  | response (status_code : Nat) (finalUrl : String)
  | timeout
  | connectionError
  | tooManyRedirects
  | otherError (desc : String)
deriving DecidableEq, Repr

/-- The scanner's mutable state: the visited set of base URLs (modelled
as a membership list) and the accumulated `all_results` list. -/
structure ScanState where
  visited_pages : List String
  all_results : List DiscoveredLink
deriving DecidableEq, Repr

/-- The Page Renderer collaborator: renders a URL into a parsed page, or
fails with an exception (message). -/
def Renderer : Type := String → Except String Soup

/-! ## Pure functions of the scanner -/

/-- `get_base_url`: strip everything from the first `#` onward. -/
def get_base_url (url : String) : String :=
  if pyHasChar url '#' then pySplitHead url '#' else url

/-- `is_similar_page`: `'rise.articulate.com' in parsed.netloc and
'/share/' in parsed.path`. -/
def is_similar_page (url : String) : Bool :=
  let parsed := urlparse url
  if pyHasSub parsed.netloc "rise.articulate.com" && pyHasSub parsed.path "/share/" then
    true
  else false

/-- `get_lesson_title`: text of `h1.lesson-header__title`, else the
sentinel. -/
def get_lesson_title (soup : Soup) : String :=
  match soup.lessonHeaderTitle with
  | Option.some t => t
  | Option.none => "Unknown Lesson"

/-- The display string `f"{href} is in '{lesson_title}'"`. -/
def display_of (href lesson_title : String) : String :=
  href ++ " is in \x27" ++ lesson_title ++ "\x27"

/-- `get_lesson_links`: anchors carrying `data-link="lesson-link-item"`
whose `href` starts with `#/lessons/` become lesson entries; the lesson id
is the href with every occurrence of `#/lessons/` removed (Python
`str.replace`), the full URL is rebuilt from the base URL, and the title
is the anchor text truncated at the first line break and stripped when the
text spans multiple lines. -/
def get_lesson_links (soup : Soup) (base_url : String) : List LessonLink :=
  (soup.anchors.filter (fun a => a.dataLink == Option.some "lesson-link-item")).filterMap
    (fun nav_link =>
      let href := nav_link.href.getD ""
      if href != "" && pyStartsWith href "#/lessons/" then
        let lesson_id := pyReplace href "#/lessons/" ""
        let full_url := base_url ++ "#/lessons/" ++ lesson_id
        let text := nav_link.text
        let lesson_title :=
          if pyHasChar text '\x0a' then pyStrip (pySplitHead text '\x0a') else text
        Option.some { url := full_url, title := lesson_title, lesson_id := lesson_id }
      else Option.none)

/-- `extract_urls_from_page`: every anchor that has an `href` attribute
whose value starts with `http` yields a `DiscoveredLink`. -/
def extract_urls_from_page (soup : Soup) (lesson_title : String) : List DiscoveredLink :=
  (soup.anchors.filter (fun a => a.href.isSome)).filterMap
    (fun link_tag =>
      let href := link_tag.href.getD ""
      if pyStartsWith href "http" then
        Option.some { url := href, link_text := link_tag.text, lesson := lesson_title,
                      display := display_of href lesson_title }
      else Option.none)

/-- `verify_url`: classify the outcome of the HEAD request. -/
def verify_url (outcome : FetchOutcome) : VerificationResult :=
  match outcome with
  | FetchOutcome.response status_code finalUrl =>
    if status_code == 200 then
      { status := "OK", code := Option.some status_code, message := "URL is accessible" }
    else if 300 ≤ status_code && status_code < 400 then
      { status := "WARNING", code := Option.some status_code,
        message := "Redirects to " ++ finalUrl }
    else if 400 ≤ status_code && status_code < 500 then
      { status := "BROKEN", code := Option.some status_code,
        message := "Client error (page not found or forbidden)" }
    else if 500 ≤ status_code && status_code < 600 then
      { status := "BROKEN", code := Option.some status_code, message := "Server error" }
    else
      { status := "WARNING", code := Option.some status_code,
        message := "Unexpected status code: " ++ toString status_code }
  | FetchOutcome.timeout =>
    { status := "ERROR", code := Option.none, message := "Request timed out" }
  | FetchOutcome.connectionError =>
    { status := "BROKEN", code := Option.none, message := "Connection failed" }
  | FetchOutcome.tooManyRedirects =>
    { status := "WARNING", code := Option.none, message := "Too many redirects" }
  | FetchOutcome.otherError desc =>
    { status := "ERROR", code := Option.none, message := "Error: " ++ desc }

/-! ## The traversal engine

`scan_course`'s lesson loop mutates `all_results` (display-string dedup)
and collects the `external_courses` set.  The Python `set` is modelled as
an insertion-ordered duplicate-free list: the source iterates the set in
an unspecified (hash) order, and no property proved here depends on that
order.  A rendering failure anywhere inside the `try` block is caught at
the course level; `scan_lessons` therefore returns `Except.error` carrying
the state accumulated so far, and `scan_course` turns that into a normal
return, exactly like the source's `except` clause. -/

/-- Python `set.add` on the insertion-ordered list model. -/
def set_add (s : List String) (x : String) : List String :=
  if s.contains x then s else s ++ [x]

/-- The body of the `for url_data in urls` loop: display-string dedup into
`all_results`, and collection of similar-course URLs when `depth <
max_depth`. -/
def process_urls (all_results : List DiscoveredLink) (external : List String)
    (urls : List DiscoveredLink) (depth max_depth : Nat) :
    List DiscoveredLink × List String :=
  urls.foldl
    (fun acc url_data =>
      let results :=
        if acc.1.any (fun r => r.display == url_data.display) then acc.1
        else acc.1 ++ [url_data]
      let ext :=
        if is_similar_page url_data.url && decide (depth < max_depth) then
          set_add acc.2 url_data.url
        else acc.2
      (results, ext))
    (all_results, external)

/-- The `for i, lesson in enumerate(lesson_links, 1)` loop: render each
lesson page, extract its title and outbound links, and process them.  A
rendering failure aborts the loop, handing the state accumulated so far to
the course-level exception handler. -/
def scan_lessons (o : Renderer) (st : ScanState) (lessons : List LessonLink)
    (external : List String) (depth max_depth : Nat) :
    Except ScanState (ScanState × List String) :=
  match lessons with
  | [] => Except.ok (st, external)
  | lesson :: rest =>
    match o lesson.url with
    | Except.error _ => Except.error st
    | Except.ok lesson_soup =>
      let lesson_title := get_lesson_title lesson_soup
      let urls := extract_urls_from_page lesson_soup lesson_title
      let step := process_urls st.all_results external urls depth max_depth
      scan_lessons o { st with all_results := step.1 } rest step.2 depth max_depth

mutual

/-- `scan_course`: visited-set guard, mark visited, render the landing
page, walk the lessons, then recurse into the collected similar courses
when `depth < max_depth`.  Exceptions from rendering are caught here and
the call returns with the state built so far. -/
def scan_course (o : Renderer) (st : ScanState) (course_url : String)
    (depth max_depth : Nat) : ScanState :=
  let base_url := get_base_url course_url
  if st.visited_pages.contains base_url then st
  else
    let st1 : ScanState :=
      { visited_pages := st.visited_pages ++ [base_url], all_results := st.all_results }
    match o course_url with
    | Except.error _ => st1
    | Except.ok soup =>
      let lesson_links := get_lesson_links soup base_url
      match scan_lessons o st1 lesson_links [] depth max_depth with
      | Except.error st2 => st2
      | Except.ok (st2, external_courses) =>
        if h : external_courses ≠ [] ∧ depth < max_depth then
          scan_list o st2 external_courses (depth + 1) max_depth
        else st2
termination_by (max_depth - depth, 0)

/-- The `for ext_course in external_courses` recursion loop. -/
def scan_list (o : Renderer) (st : ScanState) (courses : List String)
    (depth max_depth : Nat) : ScanState :=
  match courses with
  | [] => st
  | c :: rest => scan_list o (scan_course o st c depth max_depth) rest depth max_depth
termination_by (max_depth - depth, courses.length + 1)

end

/-! ## The verification stage

`verify_all_urls` groups `all_results` by URL into an insertion-ordered
dict (modelled as an association list, which is what Python's ordered
`dict` is observationally) and verifies each distinct URL once.  The
thread pool only affects completion order; the result `dict` is keyed by
URL, so the mapping produced is the one modelled here.  The verifier is
abstracted as a function from a URL to the `VerificationResult` that
`verify_url` returns for it (the inner `except` that converts a worker
failure into an ERROR result keeps it total). -/

/-- One iteration of the `for result in all_results` grouping loop: create
the key's empty group if absent, then append `result` to its group. -/
def group_step (unique_urls : List (String × List DiscoveredLink))
    (result : DiscoveredLink) : List (String × List DiscoveredLink) :=
  let unique_urls :=
    if unique_urls.any (fun p => p.1 == result.url) then unique_urls
    else unique_urls ++ [(result.url, [])]
  unique_urls.map
    (fun p => if p.1 == result.url then (p.1, p.2 ++ [result]) else p)

/-- The `unique_urls` dict: group the accumulated results by URL,
insertion-ordered, each group in encounter order. -/
def group_results (all_results : List DiscoveredLink) :
    List (String × List DiscoveredLink) :=
  all_results.foldl group_step []

/-- `verify_all_urls`: verify every distinct URL of the accumulation once
and return the URL-keyed verification mapping together with the grouping. -/
def verify_all_urls (verify : String → VerificationResult)
    (all_results : List DiscoveredLink) :
    List (String × VerificationResult) × List (String × List DiscoveredLink) :=
  let unique_urls := group_results all_results
  let verified_results := unique_urls.map (fun p => (p.1, verify p.1))
  (verified_results, unique_urls)

/-- The accumulation step of `scan_course` in isolation, used to state the
dedup properties: fold the freshly extracted links into `all_results` with
the display-string guard. -/
def add_results (all_results : List DiscoveredLink) (urls : List DiscoveredLink) :
    List DiscoveredLink :=
  urls.foldl
    (fun acc url_data =>
      if acc.any (fun r => r.display == url_data.display) then acc
      else acc ++ [url_data])
    all_results

/-- The link-target filter as the spec describes it for C6 ("an absolute
URL with scheme http or https"), stated with the urlparse model: the
parsed scheme is `http` or `https`.  This definition follows the spec's
words and exists only to be compared with `extract_urls_from_page`'s
actual filter. -/
def spec_absolute_http_target (href : String) : Bool :=
  (urlparse href).scheme == "http" || (urlparse href).scheme == "https"

/-! ## General lemmas -/

theorem filterMap_ite {α β : Type} (l : List α) (q : α → Bool) (b : α → β) :
    (l.filterMap (fun a => if q a then Option.some (b a) else Option.none)) =
      (l.filter q).map b := by
  induction l with
  | nil => rfl
  | cons a t ih =>
    by_cases h : q a = true <;>
      simp [List.filterMap_cons, List.filter_cons, h, ih]

/-! ## Unfolding lemmas for scan_course -/

theorem scan_course_of_contains {o : Renderer} {st : ScanState} {u : String}
    {d m : Nat} (h : st.visited_pages.contains (get_base_url u) = true) :
    scan_course o st u d m = st := by
  have hmem : get_base_url u ∈ st.visited_pages := by simpa using h
  rw [scan_course]
  simp [hmem]

theorem scan_course_of_render_error {o : Renderer} {st : ScanState}
    {u e : String} {d m : Nat}
    (hc : st.visited_pages.contains (get_base_url u) = false)
    (he : o u = Except.error e) :
    scan_course o st u d m =
      { visited_pages := st.visited_pages ++ [get_base_url u],
        all_results := st.all_results } := by
  have hmem : get_base_url u ∉ st.visited_pages := by simpa using hc
  rw [scan_course]
  simp [hmem, he]

theorem scan_course_of_lessons_error {o : Renderer} {st : ScanState}
    {u : String} {d m : Nat} {soup : Soup} {st2 : ScanState}
    (hc : st.visited_pages.contains (get_base_url u) = false)
    (ho : o u = Except.ok soup)
    (hl : scan_lessons o
        { visited_pages := st.visited_pages ++ [get_base_url u],
          all_results := st.all_results }
        (get_lesson_links soup (get_base_url u)) [] d m = Except.error st2) :
    scan_course o st u d m = st2 := by
  have hmem : get_base_url u ∉ st.visited_pages := by simpa using hc
  rw [scan_course]
  simp [hmem, ho, hl]

theorem scan_course_of_lessons_ok_rec {o : Renderer} {st : ScanState}
    {u : String} {d m : Nat} {soup : Soup} {st2 : ScanState}
    {ext : List String}
    (hc : st.visited_pages.contains (get_base_url u) = false)
    (ho : o u = Except.ok soup)
    (hl : scan_lessons o
        { visited_pages := st.visited_pages ++ [get_base_url u],
          all_results := st.all_results }
        (get_lesson_links soup (get_base_url u)) [] d m = Except.ok (st2, ext))
    (hrec : ext ≠ [] ∧ d < m) :
    scan_course o st u d m = scan_list o st2 ext (d + 1) m := by
  have hmem : get_base_url u ∉ st.visited_pages := by simpa using hc
  rw [scan_course]
  simp [hmem, ho, hl, hrec]

theorem scan_course_of_lessons_ok_norec {o : Renderer} {st : ScanState}
    {u : String} {d m : Nat} {soup : Soup} {st2 : ScanState}
    {ext : List String}
    (hc : st.visited_pages.contains (get_base_url u) = false)
    (ho : o u = Except.ok soup)
    (hl : scan_lessons o
        { visited_pages := st.visited_pages ++ [get_base_url u],
          all_results := st.all_results }
        (get_lesson_links soup (get_base_url u)) [] d m = Except.ok (st2, ext))
    (hrec : ¬(ext ≠ [] ∧ d < m)) :
    scan_course o st u d m = st2 := by
  have hmem : get_base_url u ∉ st.visited_pages := by simpa using hc
  rw [scan_course]
  simp [hmem, ho, hl, hrec]

/-! ## Facts about the lesson loop -/

theorem process_urls_cons (rs : List DiscoveredLink) (ext : List String)
    (x : DiscoveredLink) (us : List DiscoveredLink) (d m : Nat) :
    process_urls rs ext (x :: us) d m =
      process_urls
        (if rs.any (fun r => r.display == x.display) then rs else rs ++ [x])
        (if is_similar_page x.url && decide (d < m) then set_add ext x.url
         else ext)
        us d m := rfl

theorem process_urls_snd_of_le {d m : Nat} (hdm : m ≤ d) :
    ∀ (us : List DiscoveredLink) (rs : List DiscoveredLink) (ext : List String),
      (process_urls rs ext us d m).2 = ext := by
  intro us
  induction us with
  | nil => intro rs ext; rfl
  | cons x t ih =>
    intro rs ext
    have hdec : decide (d < m) = false := by simp; omega
    rw [process_urls_cons, hdec]
    simp only [Bool.and_false, Bool.false_eq_true, if_false]
    exact ih _ ext

theorem scan_lessons_error_visited (o : Renderer) :
    ∀ (ls : List LessonLink) (st : ScanState) (ext : List String)
      (d m : Nat) (st2 : ScanState),
      scan_lessons o st ls ext d m = Except.error st2 →
      st2.visited_pages = st.visited_pages := by
  intro ls
  induction ls with
  | nil => intro st ext d m st2 h; simp only [scan_lessons] at h; cases h
  | cons lesson rest ih =>
    intro st ext d m st2 h
    simp only [scan_lessons] at h
    cases ho : o lesson.url with
    | error e => rw [ho] at h; cases h; rfl
    | ok soup =>
      rw [ho] at h
      have h' : scan_lessons o
          { visited_pages := st.visited_pages,
            all_results := (process_urls st.all_results ext
              (extract_urls_from_page soup (get_lesson_title soup)) d m).1 }
          rest
          (process_urls st.all_results ext
            (extract_urls_from_page soup (get_lesson_title soup)) d m).2 d m =
          Except.error st2 := h
      exact ih
        { visited_pages := st.visited_pages,
          all_results := (process_urls st.all_results ext
            (extract_urls_from_page soup (get_lesson_title soup)) d m).1 }
        _ _ _ _ h'

theorem scan_lessons_ok_facts (o : Renderer) :
    ∀ (ls : List LessonLink) (st : ScanState) (ext : List String)
      (d m : Nat) (st2 : ScanState) (ext2 : List String),
      scan_lessons o st ls ext d m = Except.ok (st2, ext2) →
      st2.visited_pages = st.visited_pages ∧ (m ≤ d → ext2 = ext) := by
  intro ls
  induction ls with
  | nil =>
    intro st ext d m st2 ext2 h
    simp only [scan_lessons] at h
    cases h
    exact ⟨rfl, fun _ => rfl⟩
  | cons lesson rest ih =>
    intro st ext d m st2 ext2 h
    simp only [scan_lessons] at h
    cases ho : o lesson.url with
    | error e => rw [ho] at h; cases h
    | ok soup =>
      rw [ho] at h
      have h' : scan_lessons o
          { visited_pages := st.visited_pages,
            all_results := (process_urls st.all_results ext
              (extract_urls_from_page soup (get_lesson_title soup)) d m).1 }
          rest
          (process_urls st.all_results ext
            (extract_urls_from_page soup (get_lesson_title soup)) d m).2 d m =
          Except.ok (st2, ext2) := h
      have hrec := ih _ _ _ _ _ _ h'
      refine ⟨hrec.1, ?_⟩
      intro hdm
      rw [hrec.2 hdm]
      exact process_urls_snd_of_le hdm _ _ _


/-- The visited set grows monotonically through `scan_course`, and after
scanning a course its base URL is in the visited set. -/
theorem scan_course_visited_facts (o : Renderer) :
    ∀ (st : ScanState) (u : String) (d m : Nat),
      st.visited_pages ⊆ (scan_course o st u d m).visited_pages ∧
      get_base_url u ∈ (scan_course o st u d m).visited_pages := by
  refine scan_course.induct o
    (fun st u d m =>
      st.visited_pages ⊆ (scan_course o st u d m).visited_pages ∧
      get_base_url u ∈ (scan_course o st u d m).visited_pages)
    (fun st us d m =>
      st.visited_pages ⊆ (scan_list o st us d m).visited_pages)
    ?_ ?_ ?_ ?_ ?_ ?_ ?_
  · intro st u d m base hc
    rw [scan_course_of_contains hc]
    exact ⟨fun x hx => hx, by simpa using hc⟩
  · intro st u d m base hc e he
    have hc' : st.visited_pages.contains (get_base_url u) = false := by
      simp only [Bool.not_eq_true] at hc; exact hc
    rw [scan_course_of_render_error hc' he]
    exact ⟨List.subset_append_left _ _, by simp⟩
  · intro st u d m base hc st1 soup ho llinks st2 hl
    have hc' : st.visited_pages.contains (get_base_url u) = false := by
      simp only [Bool.not_eq_true] at hc; exact hc
    rw [scan_course_of_lessons_error hc' ho hl]
    have hv := scan_lessons_error_visited o _ _ _ _ _ _ hl
    rw [hv]
    exact ⟨List.subset_append_left _ _, by simp⟩
  · intro st u d m base hc st1 soup ho llinks st2 ext hl hrec ih2
    have hc' : st.visited_pages.contains (get_base_url u) = false := by
      simp only [Bool.not_eq_true] at hc; exact hc
    rw [scan_course_of_lessons_ok_rec hc' ho hl hrec]
    have hv := (scan_lessons_ok_facts o _ _ _ _ _ _ _ hl).1
    constructor
    · intro x hx
      exact ih2 (hv ▸ (List.mem_append_left _ hx))
    · exact ih2 (hv ▸ (List.mem_append_right _ (by simp)))
  · intro st u d m base hc st1 soup ho llinks st2 ext hl hrec
    have hc' : st.visited_pages.contains (get_base_url u) = false := by
      simp only [Bool.not_eq_true] at hc; exact hc
    rw [scan_course_of_lessons_ok_norec hc' ho hl hrec]
    have hv := (scan_lessons_ok_facts o _ _ _ _ _ _ _ hl).1
    rw [hv]
    exact ⟨List.subset_append_left _ _, by simp⟩
  · intro st d m
    rw [scan_list]
    exact fun x hx => hx
  · intro st d m c rest ih1 ih2
    rw [scan_list]
    exact fun x hx => ih2 (ih1.1 hx)

/-! ## C1: the visited-set guard -/

/-- C1: when a course URL's base URL (the URL with everything from the
first `#` stripped) is already in the visited set, `scan_course` is a
no-op returning the state unchanged; consequently scanning the same URL a
second time, at any depth arguments, changes nothing. -/
theorem C1_visited_scan_is_noop (o : Renderer) (st : ScanState) (u : String)
    (d m : Nat)
    (h : st.visited_pages.contains (get_base_url u) = true) :
    scan_course o st u d m = st ∧
    (∀ (st0 : ScanState) (u0 : String) (d1 m1 d2 m2 : Nat),
      scan_course o (scan_course o st0 u0 d1 m1) u0 d2 m2 =
        scan_course o st0 u0 d1 m1) := by
  refine ⟨scan_course_of_contains h, ?_⟩
  intro st0 u0 d1 m1 d2 m2
  apply scan_course_of_contains
  have hmem := (scan_course_visited_facts o st0 u0 d1 m1).2
  simpa using hmem

/-- Witness for C1 on a concrete visited state. -/
theorem C1_visited_scan_is_noop_witness :
    scan_course (fun _ => Except.error "x")
        ⟨["https://v.example/c"], []⟩ "https://v.example/c#/lessons/1" 0 2 =
      ⟨["https://v.example/c"], []⟩ :=
  (C1_visited_scan_is_noop (fun _ => Except.error "x")
    ⟨["https://v.example/c"], []⟩ "https://v.example/c#/lessons/1" 0 2
    (by decide)).1

/-! ## C2: the depth bound -/

/-- C2: recursion never exceeds `max_depth`: at `depth ≥ max_depth` the
url-processing loop collects no recursion candidates (its external-course
output is exactly its input), and a course scanned at `depth = max_depth`
spawns no recursive scans — it visits at most its own base URL. -/
theorem C2_recursion_depth_bound (rs : List DiscoveredLink) (ext : List String)
    (us : List DiscoveredLink) (d m : Nat) (o : Renderer) (st : ScanState)
    (u : String) (hdm : m ≤ d) :
    (process_urls rs ext us d m).2 = ext ∧
    ((scan_course o st u m m).visited_pages = st.visited_pages ∨
     (scan_course o st u m m).visited_pages =
       st.visited_pages ++ [get_base_url u]) := by
  refine ⟨process_urls_snd_of_le hdm us rs ext, ?_⟩
  by_cases hc : st.visited_pages.contains (get_base_url u) = true
  · left; rw [scan_course_of_contains hc]
  · have hc' : st.visited_pages.contains (get_base_url u) = false := by
      simpa using hc
    cases ho : o u with
    | error e => right; rw [scan_course_of_render_error hc' ho]
    | ok soup =>
      cases hl : scan_lessons o
          { visited_pages := st.visited_pages ++ [get_base_url u],
            all_results := st.all_results }
          (get_lesson_links soup (get_base_url u)) [] m m with
      | error st2 =>
        right
        rw [scan_course_of_lessons_error hc' ho hl]
        exact scan_lessons_error_visited o _ _ _ _ _ _ hl
      | ok pair =>
        obtain ⟨st2, ext2⟩ := pair
        have hf := scan_lessons_ok_facts o _ _ _ _ _ _ _ hl
        have hext : ext2 = [] := hf.2 (le_refl m)
        right
        rw [scan_course_of_lessons_ok_norec hc' ho hl (by simp [hext])]
        exact hf.1

/-- Witness for C2 at `depth = max_depth = 2` with a similar-course link
in the processed urls. -/
theorem C2_recursion_depth_bound_witness :
    (process_urls [] []
        [⟨"https://rise.articulate.com/share/x", "t", "l", "dsp"⟩] 2 2).2 =
      [] ∧
    ((scan_course (fun _ => Except.error "x") ⟨[], []⟩
        "https://c.example/a" 2 2).visited_pages = ([] : List String) ∨
     (scan_course (fun _ => Except.error "x") ⟨[], []⟩
        "https://c.example/a" 2 2).visited_pages =
       [] ++ [get_base_url "https://c.example/a"]) :=
  C2_recursion_depth_bound [] []
    [⟨"https://rise.articulate.com/share/x", "t", "l", "dsp"⟩] 2 2
    (fun _ => Except.error "x") ⟨[], []⟩ "https://c.example/a" (by decide)

/-- C3: `verify_url` is a total classification of the status code or
exception kind: 200 is OK "URL is accessible", 300-399 is WARNING naming
the final redirect target, 400-499 is BROKEN "Client error (page not
found or forbidden)", 500-599 is BROKEN "Server error", any other code is
WARNING naming the unexpected code, a timeout is ERROR "Request timed
out" with no code, a connection failure is BROKEN "Connection failed"
with no code, too many redirects is WARNING "Too many redirects" with no
code, and any other failure is ERROR carrying the failure description
with no code. -/
theorem C3_verify_url_classification (c : Nat) (u d : String) :
    verify_url (FetchOutcome.response 200 u) =
      ⟨"OK", Option.some 200, "URL is accessible"⟩ ∧
    (300 ≤ c → c < 400 → verify_url (FetchOutcome.response c u) =
      ⟨"WARNING", Option.some c, "Redirects to " ++ u⟩) ∧
    (400 ≤ c → c < 500 → verify_url (FetchOutcome.response c u) =
      ⟨"BROKEN", Option.some c, "Client error (page not found or forbidden)"⟩) ∧
    (500 ≤ c → c < 600 → verify_url (FetchOutcome.response c u) =
      ⟨"BROKEN", Option.some c, "Server error"⟩) ∧
    (c ≠ 200 → c < 300 ∨ 600 ≤ c → verify_url (FetchOutcome.response c u) =
      ⟨"WARNING", Option.some c, "Unexpected status code: " ++ toString c⟩) ∧
    verify_url FetchOutcome.timeout =
      ⟨"ERROR", Option.none, "Request timed out"⟩ ∧
    verify_url FetchOutcome.connectionError =
      ⟨"BROKEN", Option.none, "Connection failed"⟩ ∧
    verify_url FetchOutcome.tooManyRedirects =
      ⟨"WARNING", Option.none, "Too many redirects"⟩ ∧
    verify_url (FetchOutcome.otherError d) =
      ⟨"ERROR", Option.none, "Error: " ++ d⟩ := by
  refine ⟨rfl, ?_, ?_, ?_, ?_, rfl, rfl, rfl, rfl⟩ <;>
    · intro h1 h2
      simp only [verify_url]
      repeat' split
      all_goals simp_all
      all_goals omega

/-- Witness for C3 at concrete inputs in each hypothesis-guarded range. -/
theorem C3_verify_url_classification_witness :
    verify_url (FetchOutcome.response 301 "https://t.example") =
      ⟨"WARNING", Option.some 301, "Redirects to https://t.example"⟩ ∧
    verify_url (FetchOutcome.response 404 "x") =
      ⟨"BROKEN", Option.some 404, "Client error (page not found or forbidden)"⟩ ∧
    verify_url (FetchOutcome.response 500 "x") =
      ⟨"BROKEN", Option.some 500, "Server error"⟩ ∧
    verify_url (FetchOutcome.response 204 "x") =
      ⟨"WARNING", Option.some 204, "Unexpected status code: 204"⟩ :=
  ⟨(C3_verify_url_classification 301 "https://t.example" "").2.1 (by decide) (by decide),
   (C3_verify_url_classification 404 "x" "").2.2.1 (by decide) (by decide),
   (C3_verify_url_classification 500 "x" "").2.2.2.1 (by decide) (by decide),
   (C3_verify_url_classification 204 "x" "").2.2.2.2.1 (by decide) (Or.inl (by decide))⟩

/-! ## C9: is_similar_page -/

/-- C9: `is_similar_page u` is true exactly when `rise.articulate.com`
occurs as a substring of the parsed netloc and `/share/` occurs as a
substring of the parsed path; look-alike hosts such as
`rise.articulate.com.example.net` and `evil-rise.articulate.com`, and
paths with `/share/` in the middle, therefore qualify. -/
theorem C9_similar_page_substring (u : String) :
    (is_similar_page u = true ↔
      (pyHasSub (urlparse u).netloc "rise.articulate.com" = true ∧
       pyHasSub (urlparse u).path "/share/" = true)) ∧
    is_similar_page "https://rise.articulate.com.example.net/share/c" = true ∧
    is_similar_page "https://evil-rise.articulate.com/share/c" = true ∧
    is_similar_page "https://rise.articulate.com/x/share/y" = true ∧
    is_similar_page "https://rise.articulate.com/shareX" = false ∧
    is_similar_page "https://other.example.net/share/c" = false := by
  refine ⟨?_, by decide, by decide, by decide, by decide, by decide⟩
  simp only [is_similar_page]
  cases h1 : pyHasSub (urlparse u).netloc "rise.articulate.com" <;>
    cases h2 : pyHasSub (urlparse u).path "/share/" <;> simp [h1, h2]

/-! ## C6: the outbound-link filter -/

/-- C6 counterexample: the anchor with target `httpx://evil.example/a` is
kept by `extract_urls_from_page` although that target is not an absolute
URL with scheme http or https (its parsed scheme is `httpx`), and the
relative target `httpdocs/a.html` (no scheme at all) is kept as well; so
the filter is not "absolute URL with scheme http or https". -/
theorem C6_counterexample_httpx_kept :
    (extract_urls_from_page
        ⟨[⟨Option.some "httpx://evil.example/a", Option.none, "t"⟩,
          ⟨Option.some "httpdocs/a.html", Option.none, "r"⟩], Option.none⟩ "L").map
        (fun d => d.url) = ["httpx://evil.example/a", "httpdocs/a.html"] ∧
    spec_absolute_http_target "httpx://evil.example/a" = false ∧
    spec_absolute_http_target "httpdocs/a.html" = false := by
  decide

/-- C6 amended: `extract_urls_from_page` keeps exactly the anchors that
have a target attribute whose value starts with the four characters
`http` (a plain string-prefix test, which admits schemes such as `httpx`
and relative targets beginning with `http`); each kept entry records the
target URL, the anchor text and the display string built from the lesson
title.  Anchors without a target are dropped by the `href=True` query,
and mailto or in-page fragment targets never start with `http`, so they
are dropped by the prefix test — a hard filter with no warning entry. -/
theorem C6_amended_http_prefix_filter (soup : Soup) (lesson_title : String) :
    extract_urls_from_page soup lesson_title =
      ((soup.anchors.filter (fun a => a.href.isSome)).filter
          (fun a => pyStartsWith (a.href.getD "") "http")).map
        (fun a => ⟨a.href.getD "", a.text, lesson_title,
                   display_of (a.href.getD "") lesson_title⟩) ∧
    (∀ href : String, pyStartsWith href "mailto:" = true →
      pyStartsWith href "http" = false) ∧
    (∀ href : String, pyStartsWith href "#" = true →
      pyStartsWith href "http" = false) := by
  refine ⟨?_, ?_, ?_⟩
  · exact filterMap_ite (soup.anchors.filter (fun a => a.href.isSome))
      (fun a => pyStartsWith (a.href.getD "") "http")
      (fun a => ({ url := a.href.getD "", link_text := a.text,
                   lesson := lesson_title,
                   display := display_of (a.href.getD "") lesson_title } :
                 DiscoveredLink))
  · intro href h
    simp only [pyStartsWith, List.isPrefixOf_iff_prefix] at h ⊢
    rw [Bool.eq_false_iff]
    intro h2
    rw [List.isPrefixOf_iff_prefix] at h2
    rcases List.prefix_or_prefix_of_prefix h h2 with hc | hc
    · exact absurd hc (by decide)
    · exact absurd hc (by decide)
  · intro href h
    simp only [pyStartsWith, List.isPrefixOf_iff_prefix] at h ⊢
    rw [Bool.eq_false_iff]
    intro h2
    rw [List.isPrefixOf_iff_prefix] at h2
    rcases List.prefix_or_prefix_of_prefix h h2 with hc | hc
    · exact absurd hc (by decide)
    · exact absurd hc (by decide)

/-! ## C10: the dedup key ignores the anchor text -/

/-- C10: two anchors with the same target URL extracted under the same
lesson title but different anchor texts produce entries with the same
display string, and the accumulation keeps only the first of them,
retaining its anchor text; the later anchor's differing text is
discarded. -/
theorem C10_dedup_ignores_anchor_text (a1 a2 : Anchor) (u t : String)
    (x : Option String)
    (h1 : a1.href = Option.some u) (h2 : a2.href = Option.some u)
    (hp : pyStartsWith u "http" = true) (_hdiff : a1.text ≠ a2.text) :
    extract_urls_from_page ⟨[a1, a2], x⟩ t =
      [⟨u, a1.text, t, display_of u t⟩, ⟨u, a2.text, t, display_of u t⟩] ∧
    add_results [] (extract_urls_from_page ⟨[a1, a2], x⟩ t) =
      [⟨u, a1.text, t, display_of u t⟩] := by
  have hex : extract_urls_from_page ⟨[a1, a2], x⟩ t =
      [⟨u, a1.text, t, display_of u t⟩, ⟨u, a2.text, t, display_of u t⟩] := by
    simp [extract_urls_from_page, h1, h2, hp]
  refine ⟨hex, ?_⟩
  rw [hex]
  simp [add_results]

/-- Witness for C10 at concrete anchors. -/
theorem C10_dedup_ignores_anchor_text_witness :
    extract_urls_from_page
        ⟨[⟨Option.some "https://e.example/p", Option.none, "first text"⟩,
          ⟨Option.some "https://e.example/p", Option.none, "second text"⟩],
         Option.none⟩ "Lesson A" =
      [⟨"https://e.example/p", "first text", "Lesson A",
        display_of "https://e.example/p" "Lesson A"⟩,
       ⟨"https://e.example/p", "second text", "Lesson A",
        display_of "https://e.example/p" "Lesson A"⟩] ∧
    add_results []
        (extract_urls_from_page
          ⟨[⟨Option.some "https://e.example/p", Option.none, "first text"⟩,
            ⟨Option.some "https://e.example/p", Option.none, "second text"⟩],
           Option.none⟩ "Lesson A") =
      [⟨"https://e.example/p", "first text", "Lesson A",
        display_of "https://e.example/p" "Lesson A"⟩] :=
  C10_dedup_ignores_anchor_text
    ⟨Option.some "https://e.example/p", Option.none, "first text"⟩
    ⟨Option.some "https://e.example/p", Option.none, "second text"⟩
    "https://e.example/p" "Lesson A" Option.none rfl rfl (by decide) (by decide)

/-! ## C8: course-level failure containment -/

/-- C8: when rendering a course's landing page fails, `scan_course`
returns normally with the base URL marked visited and the accumulation
untouched, and a crawl over sibling courses simply continues from that
state. -/
theorem C8_course_failure_contained (o : Renderer) (st : ScanState)
    (u e : String) (d m : Nat) (rest : List String)
    (hv : st.visited_pages.contains (get_base_url u) = false)
    (he : o u = Except.error e) :
    scan_course o st u d m =
      { visited_pages := st.visited_pages ++ [get_base_url u],
        all_results := st.all_results } ∧
    scan_list o st (u :: rest) d m =
      scan_list o { visited_pages := st.visited_pages ++ [get_base_url u],
                    all_results := st.all_results } rest d m := by
  have h1 : scan_course o st u d m =
      { visited_pages := st.visited_pages ++ [get_base_url u],
        all_results := st.all_results } := by
    have hmem : get_base_url u ∉ st.visited_pages := by simpa using hv
    rw [scan_course]
    simp [hmem, he]
  exact ⟨h1, by rw [scan_list, h1]⟩

/-- Witness for C8 with a renderer that always fails. -/
theorem C8_course_failure_contained_witness :
    scan_course (fun _ => Except.error "boom") ⟨[], []⟩
        "https://c.example/x#f" 0 2 =
      { visited_pages := [] ++ [get_base_url "https://c.example/x#f"],
        all_results := [] } ∧
    scan_list (fun _ => Except.error "boom") ⟨[], []⟩
        ["https://c.example/x#f", "https://c.example/y"] 0 2 =
      scan_list (fun _ => Except.error "boom")
        { visited_pages := [] ++ [get_base_url "https://c.example/x#f"],
          all_results := [] } ["https://c.example/y"] 0 2 :=
  C8_course_failure_contained (fun _ => Except.error "boom") ⟨[], []⟩
    "https://c.example/x#f" "boom" 0 2 ["https://c.example/y"]
    (by decide) rfl

/-! ## C4: display-string deduplication -/

theorem add_results_cons (rs : List DiscoveredLink) (u : DiscoveredLink)
    (us : List DiscoveredLink) :
    add_results rs (u :: us) =
      add_results
        (if rs.any (fun r => r.display == u.display) then rs else rs ++ [u])
        us := rfl

theorem display_of_inj {url l1 l2 : String}
    (h : display_of url l1 = display_of url l2) : l1 = l2 := by
  have h' := congrArg String.data h
  simp only [display_of, String.data_append] at h'
  have h2 := List.append_cancel_right h'
  have h3 := List.append_cancel_left h2
  exact String.ext h3

theorem add_results_nodup :
    ∀ (us rs : List DiscoveredLink),
      ((rs.map (fun r => r.display)).Nodup →
        ((add_results rs us).map (fun r => r.display)).Nodup) := by
  intro us
  induction us with
  | nil => intro rs h; exact h
  | cons u t ih =>
    intro rs h
    rw [add_results_cons]
    by_cases ha : rs.any (fun r => r.display == u.display) = true
    · rw [if_pos ha]; exact ih rs h
    · rw [if_neg ha]
      refine ih _ ?_
      have hnotin : u.display ∉ rs.map (fun r => r.display) := by
        intro hmem
        obtain ⟨r, hr, hdisp⟩ := List.mem_map.mp hmem
        exact ha (List.any_eq_true.mpr ⟨r, hr, by simp [hdisp]⟩)
      simp [List.nodup_append, h, hnotin]

theorem add_results_extends :
    ∀ (us rs : List DiscoveredLink), rs <+: add_results rs us := by
  intro us
  induction us with
  | nil => intro rs; exact List.prefix_refl rs
  | cons u t ih =>
    intro rs
    rw [add_results_cons]
    by_cases ha : rs.any (fun r => r.display == u.display) = true
    · rw [if_pos ha]; exact ih rs
    · rw [if_neg ha]
      exact (List.prefix_append rs [u]).trans (ih (rs ++ [u]))

theorem add_results_sublist :
    ∀ (us rs : List DiscoveredLink),
      List.Sublist (add_results rs us) (rs ++ us) := by
  intro us
  induction us with
  | nil => intro rs; simp [add_results]
  | cons u t ih =>
    intro rs
    rw [add_results_cons]
    by_cases ha : rs.any (fun r => r.display == u.display) = true
    · rw [if_pos ha]
      exact (ih rs).trans (List.Sublist.append_left (List.sublist_cons_self u t) rs)
    · rw [if_neg ha]
      have := ih (rs ++ [u])
      rwa [List.append_assoc, List.singleton_append] at this

theorem add_results_display_mem :
    ∀ (us rs : List DiscoveredLink) (x : DiscoveredLink), x ∈ us →
      x.display ∈ (add_results rs us).map (fun r => r.display) := by
  intro us
  induction us with
  | nil => intro rs x hx; cases hx
  | cons u t ih =>
    intro rs x hx
    rw [add_results_cons]
    cases hx with
    | head =>
      by_cases ha : rs.any (fun r => r.display == u.display) = true
      · rw [if_pos ha]
        obtain ⟨r, hr, hd⟩ := List.any_eq_true.mp ha
        have hd' : r.display = u.display := by simpa using hd
        have hsub : rs ⊆ add_results rs t := (add_results_extends t rs).subset
        exact hd' ▸ List.mem_map_of_mem _ (hsub hr)
      · rw [if_neg ha]
        have hsub : rs ++ [u] ⊆ add_results (rs ++ [u]) t :=
          (add_results_extends t (rs ++ [u])).subset
        exact List.mem_map_of_mem _ (hsub (by simp))
    | tail _ hmem =>
      by_cases ha : rs.any (fun r => r.display == u.display) = true
      · rw [if_pos ha]; exact ih _ x hmem
      · rw [if_neg ha]; exact ih _ x hmem

theorem add_results_drop_dup {rs : List DiscoveredLink} {u : DiscoveredLink}
    (us : List DiscoveredLink) (h : ∃ r ∈ rs, r.display = u.display) :
    add_results rs (u :: us) = add_results rs us := by
  obtain ⟨r, hr, hd⟩ := h
  have ha : rs.any (fun r => r.display == u.display) = true :=
    List.any_eq_true.mpr ⟨r, hr, by simp [hd]⟩
  rw [add_results_cons, if_pos ha]

/-- C4: the accumulation is deduplicated by display string and by nothing
else: accumulating never introduces two entries with the same display
string, already-present entries stay as a prefix (insertion order is
preserved) and newly kept entries arrive in extraction order, every
extracted display string is represented afterwards, an entry whose
display string is already present is dropped, and two extracted links
with the same URL under different lesson titles have different display
strings and are both kept. -/
theorem C4_display_string_dedup (rs us us' : List DiscoveredLink)
    (u : DiscoveredLink) (url t1 t2 l1 l2 : String) :
    ((rs.map (fun r => r.display)).Nodup →
      ((add_results rs us).map (fun r => r.display)).Nodup) ∧
    rs <+: add_results rs us ∧
    List.Sublist (add_results rs us) (rs ++ us) ∧
    (∀ x ∈ us, x.display ∈ (add_results rs us).map (fun r => r.display)) ∧
    ((∃ r ∈ rs, r.display = u.display) →
      add_results rs (u :: us') = add_results rs us') ∧
    (l1 ≠ l2 →
      add_results [] [⟨url, t1, l1, display_of url l1⟩,
                      ⟨url, t2, l2, display_of url l2⟩] =
        [⟨url, t1, l1, display_of url l1⟩,
         ⟨url, t2, l2, display_of url l2⟩]) := by
  refine ⟨add_results_nodup us rs, add_results_extends us rs,
    add_results_sublist us rs, fun x hx => add_results_display_mem us rs x hx,
    add_results_drop_dup us', ?_⟩
  intro hne
  have hdisp : (display_of url l1 == display_of url l2) = false := by
    refine beq_eq_false_iff_ne.mpr ?_
    intro hcon
    exact hne (display_of_inj hcon)
  simp [add_results, hdisp]
  exact fun hcon => hne (display_of_inj hcon)

/-- Witness for C4 on concrete links: a same-display duplicate is
dropped, the result stays duplicate-free, and a same-URL
different-lesson pair is kept whole. -/
theorem C4_display_string_dedup_witness :
    (((add_results
        [⟨"https://x.example/", "a", "L1", display_of "https://x.example/" "L1"⟩]
        [⟨"https://x.example/", "b", "L1",
          display_of "https://x.example/" "L1"⟩]).map
        (fun r => r.display)).Nodup) ∧
    add_results
        [⟨"https://x.example/", "a", "L1", display_of "https://x.example/" "L1"⟩]
        [⟨"https://x.example/", "b", "L1",
          display_of "https://x.example/" "L1"⟩] =
      add_results
        [⟨"https://x.example/", "a", "L1",
          display_of "https://x.example/" "L1"⟩] [] ∧
    add_results []
        [⟨"https://x.example/", "a", "L1", display_of "https://x.example/" "L1"⟩,
         ⟨"https://x.example/", "b", "L2",
           display_of "https://x.example/" "L2"⟩] =
      [⟨"https://x.example/", "a", "L1", display_of "https://x.example/" "L1"⟩,
       ⟨"https://x.example/", "b", "L2", display_of "https://x.example/" "L2"⟩] :=
  ⟨(C4_display_string_dedup
      [⟨"https://x.example/", "a", "L1", display_of "https://x.example/" "L1"⟩]
      [⟨"https://x.example/", "b", "L1", display_of "https://x.example/" "L1"⟩]
      [] ⟨"", "", "", ""⟩ "" "" "" "" "").1 (by decide),
   (C4_display_string_dedup
      [⟨"https://x.example/", "a", "L1", display_of "https://x.example/" "L1"⟩]
      []
      [] ⟨"https://x.example/", "b", "L1", display_of "https://x.example/" "L1"⟩
      "" "" "" "" "").2.2.2.2.1 (by decide),
   (C4_display_string_dedup [] [] [] ⟨"", "", "", ""⟩
      "https://x.example/" "a" "b" "L1" "L2").2.2.2.2.2 (by decide)⟩

/-! ## C5: the verification stage verifies exactly the distinct URLs -/

theorem keys_map_update (r : DiscoveredLink) :
    ∀ (acc : List (String × List DiscoveredLink)),
      ((acc.map (fun p => if p.1 == r.url then (p.1, p.2 ++ [r]) else p)).map
        Prod.fst) = acc.map Prod.fst := by
  intro acc
  induction acc with
  | nil => rfl
  | cons p t ih =>
    simp only [List.map_cons]
    rw [ih]
    by_cases h : (p.1 == r.url) = true
    · rw [if_pos h]
    · rw [if_neg h]

theorem group_step_eq (acc : List (String × List DiscoveredLink))
    (r : DiscoveredLink) :
    group_step acc r =
      (if acc.any (fun p => p.1 == r.url) then acc
       else acc ++ [(r.url, [])]).map
        (fun p => if p.1 == r.url then (p.1, p.2 ++ [r]) else p) := rfl

theorem group_step_keys (acc : List (String × List DiscoveredLink))
    (r : DiscoveredLink) :
    (group_step acc r).map Prod.fst =
      if acc.any (fun p => p.1 == r.url) = true then acc.map Prod.fst
      else acc.map Prod.fst ++ [r.url] := by
  rw [group_step_eq]
  by_cases h : acc.any (fun p => p.1 == r.url) = true
  · rw [if_pos h, if_pos h]
    exact keys_map_update r acc
  · rw [if_neg h, if_neg h, keys_map_update r (acc ++ [(r.url, [])]),
      List.map_append]
    rfl

theorem group_step_nodup {acc : List (String × List DiscoveredLink)}
    {r : DiscoveredLink} (h1 : (acc.map Prod.fst).Nodup) :
    ((group_step acc r).map Prod.fst).Nodup := by
  rw [group_step_keys]
  by_cases h : acc.any (fun p => p.1 == r.url) = true
  · rw [if_pos h]; exact h1
  · rw [if_neg h]
    rw [Bool.not_eq_true] at h
    have hnot : r.url ∉ acc.map Prod.fst := by
      intro hm
      obtain ⟨p, hp, hfst⟩ := List.mem_map.mp hm
      exact absurd (by simp [hfst] : (p.1 == r.url) = true)
        (by simpa using List.any_eq_false.mp h p hp)
    simp [List.nodup_append, h1, hnot]

theorem group_step_mem {acc : List (String × List DiscoveredLink)}
    {r : DiscoveredLink} {pre : List DiscoveredLink}
    (h2 : ∀ u, u ∈ acc.map Prod.fst ↔ u ∈ pre.map (fun x => x.url)) :
    ∀ u, u ∈ (group_step acc r).map Prod.fst ↔
      u ∈ (pre ++ [r]).map (fun x => x.url) := by
  intro u
  rw [group_step_keys, List.map_append]
  by_cases h : acc.any (fun p => p.1 == r.url) = true
  · rw [if_pos h]
    obtain ⟨p, hp, he⟩ := List.any_eq_true.mp h
    have hr : r.url ∈ acc.map Prod.fst :=
      List.mem_map.mpr ⟨p, hp, by simpa using he⟩
    constructor
    · intro hu
      exact List.mem_append_left _ ((h2 u).mp hu)
    · intro hu
      rcases List.mem_append.mp hu with hu | hu
      · exact (h2 u).mpr hu
      · have : u = r.url := by simpa using hu
        rw [this]; exact hr
  · rw [if_neg h]
    constructor
    · intro hu
      rcases List.mem_append.mp hu with hu | hu
      · exact List.mem_append_left _ ((h2 u).mp hu)
      · exact List.mem_append_right _ (by simpa using hu)
    · intro hu
      rcases List.mem_append.mp hu with hu | hu
      · exact List.mem_append_left _ ((h2 u).mpr hu)
      · exact List.mem_append_right _ (by simpa using hu)

theorem group_step_content {acc : List (String × List DiscoveredLink)}
    {r : DiscoveredLink} {pre : List DiscoveredLink}
    (h2 : ∀ u, u ∈ acc.map Prod.fst ↔ u ∈ pre.map (fun x => x.url))
    (h3 : ∀ p ∈ acc, p.2 = pre.filter (fun x => x.url == p.1)) :
    ∀ p ∈ group_step acc r,
      p.2 = (pre ++ [r]).filter (fun x => x.url == p.1) := by
  intro p hp
  rw [group_step_eq] at hp
  by_cases h : acc.any (fun q => q.1 == r.url) = true
  · rw [if_pos h] at hp
    obtain ⟨q, hq, he⟩ := List.mem_map.mp hp
    by_cases hqr : (q.1 == r.url) = true
    · have hq1 : q.1 = r.url := by simpa using hqr
      rw [if_pos hqr] at he
      rw [← he]
      show q.2 ++ [r] = (pre ++ [r]).filter (fun x => x.url == q.1)
      rw [List.filter_append, ← h3 q hq]
      simp [hq1]
    · rw [if_neg hqr] at he
      rw [← he]
      show q.2 = (pre ++ [r]).filter (fun x => x.url == q.1)
      have hrq : (r.url == q.1) = false := by
        refine beq_eq_false_iff_ne.mpr ?_
        intro hcon
        exact hqr (by simp [← hcon])
      rw [List.filter_append, ← h3 q hq]
      simp [hrq]
  · have hfalse : acc.any (fun q => q.1 == r.url) = false := by
      rwa [Bool.not_eq_true] at h
    rw [if_neg h, List.map_append] at hp
    rcases List.mem_append.mp hp with hin | hin
    · obtain ⟨q, hq, he⟩ := List.mem_map.mp hin
      have hqr : (q.1 == r.url) = false := by
        simpa using List.any_eq_false.mp hfalse q hq
      rw [if_neg (by rw [hqr]; exact Bool.false_ne_true)] at he
      rw [← he]
      show q.2 = (pre ++ [r]).filter (fun x => x.url == q.1)
      have hrq : (r.url == q.1) = false := by
        refine beq_eq_false_iff_ne.mpr ?_
        intro hcon
        have : (q.1 == r.url) = true := by simp [← hcon]
        rw [hqr] at this
        cases this
      rw [List.filter_append, ← h3 q hq]
      simp [hrq]
    · have he : p = (r.url, [r]) := by simpa using hin
      rw [he]
      show [r] = (pre ++ [r]).filter (fun x => x.url == r.url)
      have hpre : pre.filter (fun x => x.url == r.url) = [] := by
        refine List.filter_eq_nil_iff.mpr ?_
        intro a ha
        intro hcon
        have hmem : r.url ∈ pre.map (fun y => y.url) :=
          List.mem_map.mpr ⟨a, ha, by simpa using hcon⟩
        have hk : r.url ∈ acc.map Prod.fst := (h2 r.url).mpr hmem
        obtain ⟨p', hp2, hfst⟩ := List.mem_map.mp hk
        exact absurd (by simp [hfst] : (p'.1 == r.url) = true)
          (by simpa using List.any_eq_false.mp hfalse p' hp2)
      rw [List.filter_append, hpre]
      simp

theorem group_fold_invariant :
    ∀ (us : List DiscoveredLink) (acc : List (String × List DiscoveredLink))
      (pre : List DiscoveredLink),
      (acc.map Prod.fst).Nodup →
      (∀ u, u ∈ acc.map Prod.fst ↔ u ∈ pre.map (fun x => x.url)) →
      (∀ p ∈ acc, p.2 = pre.filter (fun x => x.url == p.1)) →
      (((us.foldl group_step acc).map Prod.fst).Nodup ∧
       (∀ u, u ∈ (us.foldl group_step acc).map Prod.fst ↔
         u ∈ (pre ++ us).map (fun x => x.url)) ∧
       (∀ p ∈ us.foldl group_step acc,
         p.2 = (pre ++ us).filter (fun x => x.url == p.1))) := by
  intro us
  induction us with
  | nil =>
    intro acc pre h1 h2 h3
    rw [List.foldl_nil, List.append_nil]
    exact ⟨h1, h2, h3⟩
  | cons r t ih =>
    intro acc pre h1 h2 h3
    rw [List.foldl_cons]
    have hres := ih (group_step acc r) (pre ++ [r]) (group_step_nodup h1)
      (group_step_mem h2) (group_step_content h2 h3)
    have hassoc : (pre ++ [r]) ++ t = pre ++ r :: t := by
      rw [List.append_assoc, List.singleton_append]
    rw [hassoc] at hres
    exact hres

theorem group_results_spec (rs : List DiscoveredLink) :
    ((group_results rs).map Prod.fst).Nodup ∧
    (∀ u, u ∈ (group_results rs).map Prod.fst ↔
      u ∈ rs.map (fun x => x.url)) ∧
    (∀ p ∈ group_results rs, p.2 = rs.filter (fun x => x.url == p.1)) := by
  have := group_fold_invariant rs [] [] (by simp) (by simp) (by simp)
  simpa [group_results] using this

/-- C5: `verify_all_urls` verifies exactly the set of distinct `url`
values of the accumulated entries: the keys of the verification mapping
are the keys of the grouping, they comprise exactly the urls occurring in
the accumulation, without duplicates (each distinct URL is submitted to
the verifier exactly once), each key is mapped to the verifier's result
for it, and the returned grouping associates each distinct URL with
exactly the accumulated entries bearing that URL, in order. -/
theorem C5_verify_all_urls_exact (verify : String → VerificationResult)
    (rs : List DiscoveredLink) :
    ((verify_all_urls verify rs).1.map Prod.fst =
      (verify_all_urls verify rs).2.map Prod.fst) ∧
    (∀ u, u ∈ (verify_all_urls verify rs).1.map Prod.fst ↔
      u ∈ rs.map (fun x => x.url)) ∧
    ((verify_all_urls verify rs).1.map Prod.fst).Nodup ∧
    (∀ p ∈ (verify_all_urls verify rs).1, p.2 = verify p.1) ∧
    ((verify_all_urls verify rs).2 = group_results rs) ∧
    (∀ q ∈ (verify_all_urls verify rs).2,
      q.2 = rs.filter (fun x => x.url == q.1)) := by
  obtain ⟨hnodup, hmem, hcontent⟩ := group_results_spec rs
  have hkeys : (verify_all_urls verify rs).1.map Prod.fst =
      (group_results rs).map Prod.fst := by
    show ((group_results rs).map (fun p => (p.1, verify p.1))).map Prod.fst =
      (group_results rs).map Prod.fst
    rw [List.map_map]
    rfl
  refine ⟨hkeys, ?_, ?_, ?_, rfl, hcontent⟩
  · intro u
    rw [hkeys]
    exact hmem u
  · rw [hkeys]
    exact hnodup
  · intro p hp
    have hp' : p ∈ (group_results rs).map (fun q => (q.1, verify q.1)) := hp
    obtain ⟨q, _, he⟩ := List.mem_map.mp hp'
    rw [← he]

/-! ## C7: the lesson navigation extractor -/

theorem replaceFuel_no_occurrence (pat r : List Char) :
    ∀ (fuel : Nat) (s : List Char), s.length ≤ fuel →
      ¬(pat <:+: s) → replaceFuel pat r fuel s = s := by
  intro fuel
  induction fuel with
  | zero =>
    intro s hlen _
    have : s = [] := List.eq_nil_of_length_eq_zero (Nat.le_zero.mp hlen)
    rw [this]
    rfl
  | succ fuel ih =>
    intro s hlen hni
    cases s with
    | nil => rfl
    | cons c rest =>
      have hpre : pat.isPrefixOf (c :: rest) = false := by
        cases hp : pat.isPrefixOf (c :: rest) with
        | false => rfl
        | true =>
          exact absurd ((List.isPrefixOf_iff_prefix.mp hp).isInfix) hni
      show (if pat.isPrefixOf (c :: rest) && !pat.isEmpty then
          r ++ replaceFuel pat r fuel (rest.drop (pat.length - 1))
        else c :: replaceFuel pat r fuel rest) = c :: rest
      rw [hpre, Bool.false_and, if_neg Bool.false_ne_true]
      have hrest : ¬(pat <:+: rest) := fun hr => hni (List.infix_cons hr)
      rw [ih rest (Nat.le_of_succ_le_succ hlen) hrest]

theorem replaceAll_prefix_once {pat tail : List Char} (r : List Char)
    (hne : pat ≠ []) (hni : ¬(pat <:+: tail)) :
    replaceAll pat r (pat ++ tail) = r ++ tail := by
  cases pat with
  | nil => exact absurd rfl hne
  | cons p0 prest =>
    show replaceFuel (p0 :: prest) r ((p0 :: prest) ++ tail).length
        ((p0 :: prest) ++ tail) = r ++ tail
    have hlen : ((p0 :: prest) ++ tail).length = (prest ++ tail).length + 1 := by
      simp [Nat.add_comm, Nat.add_left_comm]
    rw [hlen]
    show (if (p0 :: prest).isPrefixOf (p0 :: prest ++ tail) &&
          !(p0 :: prest).isEmpty then
        r ++ replaceFuel (p0 :: prest) r (prest ++ tail).length
          ((prest ++ tail).drop ((p0 :: prest).length - 1))
      else p0 :: replaceFuel (p0 :: prest) r (prest ++ tail).length
        (prest ++ tail)) = r ++ tail
    have hpre : (p0 :: prest).isPrefixOf (p0 :: prest ++ tail) = true := by
      rw [List.isPrefixOf_iff_prefix]
      exact ⟨tail, by simp⟩
    rw [hpre, Bool.true_and]
    rw [if_pos (show (!(p0 :: prest).isEmpty) = true from rfl)]
    have hdroplen : (p0 :: prest).length - 1 = prest.length := by simp
    rw [hdroplen, List.drop_left]
    rw [replaceFuel_no_occurrence (p0 :: prest) r (prest ++ tail).length tail
      (by simp) hni]

/-- C7 counterexample: for the navigation anchor with target
`#/lessons/a#/lessons/b` the code produces lesson id `ab` (Python
`replace` removes every occurrence of the prefix), not the suffix after
the prefix, `a#/lessons/b`; and for a multi-line anchor text `T \nP` the
produced title is `T` (stripped), not the bare truncation `T `. -/
theorem C7_counterexample_replace_all_occurrences :
    (get_lesson_links
        ⟨[⟨Option.some "#/lessons/a#/lessons/b",
           Option.some "lesson-link-item", "T"⟩], Option.none⟩ "B") =
      [⟨"B#/lessons/ab", "T", "ab"⟩] ∧
    ("ab" : String) ≠ "a#/lessons/b" ∧
    ("B#/lessons/ab" : String) ≠ "B" ++ "#/lessons/" ++ "a#/lessons/b" ∧
    (get_lesson_links
        ⟨[⟨Option.some "#/lessons/x", Option.some "lesson-link-item",
           "T \x0aP"⟩], Option.none⟩ "B") =
      [⟨"B#/lessons/x", "T", "x"⟩] ∧
    ("T" : String) ≠ "T " := by
  decide

/-- C7 amended: `get_lesson_links` returns, for every anchor carrying
`data-link="lesson-link-item"` whose nonempty target starts with
`#/lessons/`, an entry whose lesson id is the target with every
occurrence of `#/lessons/` removed — which equals the suffix after the
prefix whenever the prefix does not occur again inside that suffix —
whose full URL is `base_url ++ "#/lessons/" ++ id`, and whose title is
the anchor text truncated at the first line break and stripped when the
text spans multiple lines; other anchors are skipped silently and output
order follows anchor order. -/
theorem C7_amended_lesson_links (soup : Soup) (base_url : String)
    (tail : List Char) (hni : ¬(("#/lessons/").data <:+: tail)) :
    get_lesson_links soup base_url =
      ((soup.anchors.filter
          (fun a => a.dataLink == Option.some "lesson-link-item")).filter
        (fun a => (a.href.getD "") != "" &&
          pyStartsWith (a.href.getD "") "#/lessons/")).map
        (fun a =>
          ({ url := base_url ++ "#/lessons/" ++
               pyReplace (a.href.getD "") "#/lessons/" "",
             title := if pyHasChar a.text '\x0a' then
                 pyStrip (pySplitHead a.text '\x0a')
               else a.text,
             lesson_id := pyReplace (a.href.getD "") "#/lessons/" "" } :
           LessonLink)) ∧
    pyReplace ⟨("#/lessons/").data ++ tail⟩ "#/lessons/" "" = ⟨tail⟩ := by
  constructor
  · exact filterMap_ite
      (soup.anchors.filter
        (fun a => a.dataLink == Option.some "lesson-link-item"))
      (fun a => (a.href.getD "") != "" &&
        pyStartsWith (a.href.getD "") "#/lessons/")
      (fun a =>
        ({ url := base_url ++ "#/lessons/" ++
             pyReplace (a.href.getD "") "#/lessons/" "",
           title := if pyHasChar a.text '\x0a' then
               pyStrip (pySplitHead a.text '\x0a')
             else a.text,
           lesson_id := pyReplace (a.href.getD "") "#/lessons/" "" } :
         LessonLink))
  · show (⟨replaceAll ("#/lessons/").data ("" : String).data
        (String.data ⟨("#/lessons/").data ++ tail⟩)⟩ : String) = ⟨tail⟩
    rw [replaceAll_prefix_once ("" : String).data (by decide) hni]
    rfl

/-- Witness for C7's amended theorem at a concrete suffix free of the
prefix. -/
theorem C7_amended_lesson_links_witness :
    pyReplace ⟨("#/lessons/").data ++ ("xyz").data⟩ "#/lessons/" "" =
      ⟨("xyz").data⟩ :=
  (C7_amended_lesson_links
    ⟨[⟨Option.some "#/lessons/xyz", Option.some "lesson-link-item",
       "Intro"⟩], Option.none⟩ "B" ("xyz").data (by decide)).2

end LinkFinder
